import Mathlib

/-!
Verification of the hyper_trading_system repository against its
natural-language specification.

The Python sources are shallowly embedded:

* `datetime` values are whole microseconds since a fixed calendar origin
  that falls on a midnight, so second/minute/hour fields are the usual
  quotient-remainder views and `timedelta` arithmetic is plain addition.
* floats are idealised as rationals (ℚ) except where the code takes a
  square root (`statistics.stdev`), which lands in ℝ.
* raised exceptions are `Option.none` / an explicit error summand.
-/

namespace HyperTrading

/-! ## Time model (Python `datetime` / `timedelta`) -/

abbrev Timestamp := Nat

def usPerSecond : Nat := 1000000

def usPerMinute : Nat := 60 * usPerSecond

def usPerHour : Nat := 60 * usPerMinute

def usPerDay : Nat := 24 * usPerHour

/-- Python `t.second` of a datetime. -/
def dtSecond (t : Timestamp) : Nat := t / usPerSecond % 60

/-- Python `t.minute` of a datetime. -/
def dtMinute (t : Timestamp) : Nat := t / usPerMinute % 60

/-- Python `t.hour` of a datetime. -/
def dtHour (t : Timestamp) : Nat := t / usPerHour % 24

/-- Python `t.replace(microsecond=0)`. -/
def floorToSecond (t : Timestamp) : Timestamp := t - t % usPerSecond

/-- Python `t.replace(second=0, microsecond=0)`. -/
def floorToMinute (t : Timestamp) : Timestamp := t - t % usPerMinute

/-- Python `t.replace(minute=0, second=0, microsecond=0)`. -/
def floorToHour (t : Timestamp) : Timestamp := t - t % usPerHour

/-- Python `t.replace(hour=0, minute=0, second=0, microsecond=0)`. -/
def floorToDay (t : Timestamp) : Timestamp := t - t % usPerDay

/-- Embedding of `candle_helpers._get_timedelta`; `none` models the `ValueError` raised on
an unsupported unit. -/
def _get_timedelta (period : Nat) (unit : String) : Option Nat :=
  if unit = "s" then some (period * usPerSecond)
  else if unit = "m" then some (period * usPerMinute)
  else if unit = "h" then some (period * usPerHour)
  else if unit = "d" then some (period * usPerDay)
  else none

/-- Embedding of `candle_helpers.normalize_timestamp`.  Note that the `"s"` branch of the
source subtracts `timestamp.minute % period` seconds (not
`timestamp.second % period`); the embedding reproduces that literally. -/
def normalize_timestamp (t : Timestamp) (period : Nat) (unit : String) :
    Option Timestamp :=
  if unit = "s" then some (floorToSecond t - dtMinute t % period * usPerSecond)
  else if unit = "m" then some (floorToMinute t - dtMinute t % period * usPerMinute)
  else if unit = "h" then some (floorToHour t - dtHour t % period * usPerHour)
  else if unit = "d" then some (floorToDay t)
  else none

/-! ## OHLCV events and the aggregator (`candle_helpers.aggregate_ohlcv`) -/

structure OHLCVEvent where
  start_time : Timestamp
  end_time : Timestamp
  symbol : String
  period : Nat
  unit : String
  open_ : ℚ
  high : ℚ
  low : ℚ
  close : ℚ
  volume : ℚ
  num_trades : Nat
  deriving DecidableEq, Repr

/-- Embedding of `candle_helpers.aggregate_ohlcv`.  The Python function mutates
`current_aggregated_candle` in place and returns `(is_completed, candle)`;
here the updated candle is returned functionally.  `none` models the
`ValueError` raised (via `normalize_timestamp` / `_get_timedelta`) on an
unsupported target unit. -/
def aggregate_ohlcv (new_candle : OHLCVEvent) (current : Option OHLCVEvent)
    (target_period : Nat) (target_unit : String) : Option (Bool × OHLCVEvent) :=
  match normalize_timestamp new_candle.start_time target_period target_unit,
      _get_timedelta target_period target_unit with
  | some norm, some delta =>
    let cur0 : Option OHLCVEvent :=
      match current with
      | some c => if norm > c.end_time then none else some c
      | none => none
    let base : OHLCVEvent :=
      match cur0 with
      | some c => c
      | none =>
        { start_time := norm
          end_time := norm + delta - usPerSecond
          symbol := new_candle.symbol
          period := target_period
          unit := target_unit
          open_ := new_candle.open_
          high := new_candle.high
          low := new_candle.low
          close := new_candle.close
          volume := 0
          num_trades := 0 }
    let agg : OHLCVEvent :=
      { base with
        high := max base.high new_candle.high
        low := min base.low new_candle.low
        close := new_candle.close
        volume := base.volume + new_candle.volume
        num_trades := base.num_trades + new_candle.num_trades }
    some (decide (new_candle.end_time ≥ agg.end_time), agg)
  | _, _ => none

/-- Fold a stream of candles through `aggregate_ohlcv`, as the strategy's
candle path does, recording each step's `(is_complete, aggregate)` pair. -/
def run_aggregate (tp : Nat) (tu : String) :
    List OHLCVEvent → Option OHLCVEvent → Option (List (Bool × OHLCVEvent))
  | [], _ => some []
  | c :: cs, cur =>
    match aggregate_ohlcv c cur tp tu with
    | none => none
    | some (b, agg) =>
      match run_aggregate tp tu cs (some agg) with
      | none => none
      | some tr => some ((b, agg) :: tr)

end HyperTrading

namespace HyperTrading

lemma usPerSecond_le_mul {tp u : Nat} (htp : 0 < tp) (hu : usPerSecond ≤ u) :
    usPerSecond ≤ tp * u :=
  le_trans hu (le_trans (Nat.le_of_eq (one_mul u).symm) (Nat.mul_le_mul_right u htp))

lemma usPerSecond_le_timedelta {tp : Nat} {tu : String} {delta : Nat}
    (h : _get_timedelta tp tu = some delta) (htp : 0 < tp) :
    usPerSecond ≤ delta := by
  unfold _get_timedelta at h
  split_ifs at h <;> injection h with h <;> rw [← h] <;>
    exact usPerSecond_le_mul htp (by norm_num [usPerSecond, usPerMinute, usPerHour, usPerDay])

/-- One `aggregate_ohlcv` step that stays inside the current bucket. -/
lemma aggregate_ohlcv_step (c A : OHLCVEvent) (tp : Nat) (tu : String) (B delta : Nat)
    (hnorm : normalize_timestamp c.start_time tp tu = some B)
    (hdelta : _get_timedelta tp tu = some delta)
    (hle : B ≤ A.end_time) :
    aggregate_ohlcv c (some A) tp tu =
      some (decide (c.end_time ≥ A.end_time),
        { A with
          high := max A.high c.high
          low := min A.low c.low
          close := c.close
          volume := A.volume + c.volume
          num_trades := A.num_trades + c.num_trades }) := by
  unfold aggregate_ohlcv
  rw [hnorm, hdelta]
  simp [Nat.not_lt.mpr hle]

/-- The first `aggregate_ohlcv` step of a bucket, starting from no aggregate. -/
lemma aggregate_ohlcv_init (c : OHLCVEvent) (tp : Nat) (tu : String) (B delta : Nat)
    (hnorm : normalize_timestamp c.start_time tp tu = some B)
    (hdelta : _get_timedelta tp tu = some delta) :
    aggregate_ohlcv c none tp tu =
      some (decide (c.end_time ≥ B + delta - usPerSecond),
        { start_time := B
          end_time := B + delta - usPerSecond
          symbol := c.symbol
          period := tp
          unit := tu
          open_ := c.open_
          high := max c.high c.high
          low := min c.low c.low
          close := c.close
          volume := 0 + c.volume
          num_trades := 0 + c.num_trades }) := by
  unfold aggregate_ohlcv
  rw [hnorm, hdelta]

end HyperTrading

namespace HyperTrading

lemma run_aggregate_bucket_inv (tp : Nat) (tu : String) (B delta : Nat)
    (hdelta : _get_timedelta tp tu = some delta) (hsec : usPerSecond ≤ delta)
    (cs : List OHLCVEvent) :
    ∀ (A : OHLCVEvent),
      (∀ c ∈ cs, normalize_timestamp c.start_time tp tu = some B) →
      A.end_time = B + delta - usPerSecond →
      ∃ tr, run_aggregate tp tu cs (some A) = some tr ∧ tr.length = cs.length ∧
        ∀ i (hi : i < tr.length) (hi' : i < cs.length),
          (tr.get ⟨i, hi⟩).2.open_ = A.open_ ∧
          (tr.get ⟨i, hi⟩).2.symbol = A.symbol ∧
          (tr.get ⟨i, hi⟩).2.start_time = A.start_time ∧
          (tr.get ⟨i, hi⟩).2.end_time = A.end_time ∧
          (tr.get ⟨i, hi⟩).2.close = (cs.get ⟨i, hi'⟩).close ∧
          (tr.get ⟨i, hi⟩).2.high = ((cs.take (i+1)).map OHLCVEvent.high).foldl max A.high ∧
          (tr.get ⟨i, hi⟩).2.low = ((cs.take (i+1)).map OHLCVEvent.low).foldl min A.low ∧
          (tr.get ⟨i, hi⟩).1 = decide ((cs.get ⟨i, hi'⟩).end_time ≥ A.end_time) := by
  induction cs with
  | nil =>
    intro A _ _
    exact ⟨[], rfl, rfl, by intro i hi; simp at hi⟩
  | cons c cs ih =>
    intro A hnorm hA
    have hle : B ≤ A.end_time := by rw [hA]; omega
    have hstep := aggregate_ohlcv_step c A tp tu B delta (hnorm c (by simp)) hdelta hle
    obtain ⟨tr, htr, hlen, hprops⟩ :=
      ih { A with
            high := max A.high c.high
            low := min A.low c.low
            close := c.close
            volume := A.volume + c.volume
            num_trades := A.num_trades + c.num_trades }
        (fun d hd => hnorm d (by simp [hd])) hA
    refine ⟨(decide (c.end_time ≥ A.end_time),
        { A with
          high := max A.high c.high
          low := min A.low c.low
          close := c.close
          volume := A.volume + c.volume
          num_trades := A.num_trades + c.num_trades }) :: tr, ?_, by simp [hlen], ?_⟩
    · unfold run_aggregate
      rw [hstep]
      dsimp only
      rw [htr]
    · intro i hi hi'
      match i with
      | 0 => exact ⟨rfl, rfl, rfl, rfl, rfl, rfl, rfl, rfl⟩
      | Nat.succ j =>
        have hj : j < tr.length := by
          simpa using Nat.lt_of_succ_lt_succ hi
        have hj' : j < cs.length := by
          simpa using Nat.lt_of_succ_lt_succ hi'
        obtain ⟨h1, h2, h3, h4, h5, h6, h7, h8⟩ := hprops j hj hj'
        refine ⟨h1, h2, h3, h4, by simpa using h5, ?_, ?_, by simpa using h8⟩
        · simpa [List.foldl] using h6
        · simpa [List.foldl] using h7

end HyperTrading

namespace HyperTrading

/-- C1: folding a strictly time-increasing, same-symbol stream of small
candles that all normalise into one target bucket through `aggregate_ohlcv`
gives, at every step, an aggregate whose open is the first candle's open,
whose close is the latest close, whose high/low are the running extrema,
whose start/end pin the bucket, and whose `is_complete` flag is true exactly
when the incoming candle's end time reaches the aggregate's end time. -/
theorem aggregate_ohlcv_single_bucket
    (tp : Nat) (tu : String) (B delta : Nat) (c0 : OHLCVEvent) (rest : List OHLCVEvent)
    (htp : 0 < tp)
    (hdelta : _get_timedelta tp tu = some delta)
    (hnorm : ∀ c ∈ c0 :: rest, normalize_timestamp c.start_time tp tu = some B)
    (hmono : (c0 :: rest).Chain' (fun a b => a.start_time < b.start_time))
    (hsym : ∀ c ∈ c0 :: rest, c.symbol = c0.symbol) :
    ∃ tr, run_aggregate tp tu (c0 :: rest) none = some tr ∧
      tr.length = rest.length + 1 ∧
      ∀ i (hi : i < tr.length) (hi' : i < (c0 :: rest).length),
        (tr.get ⟨i, hi⟩).2.open_ = c0.open_ ∧
        (tr.get ⟨i, hi⟩).2.symbol = c0.symbol ∧
        (tr.get ⟨i, hi⟩).2.start_time = B ∧
        (tr.get ⟨i, hi⟩).2.end_time = B + delta - usPerSecond ∧
        (tr.get ⟨i, hi⟩).2.close = (((c0 :: rest).get ⟨i, hi'⟩)).close ∧
        (tr.get ⟨i, hi⟩).2.high
          = (((c0 :: rest).take (i+1)).map OHLCVEvent.high).foldl max c0.high ∧
        (tr.get ⟨i, hi⟩).2.low
          = (((c0 :: rest).take (i+1)).map OHLCVEvent.low).foldl min c0.low ∧
        ((tr.get ⟨i, hi⟩).1 = true ↔
          B + delta - usPerSecond ≤ ((c0 :: rest).get ⟨i, hi'⟩).end_time) := by
  have hsec : usPerSecond ≤ delta := usPerSecond_le_timedelta hdelta htp
  have hinit := aggregate_ohlcv_init c0 tp tu B delta (hnorm c0 (by simp)) hdelta
  obtain ⟨tr, htr, hlen, hprops⟩ :=
    run_aggregate_bucket_inv tp tu B delta hdelta hsec rest
      { start_time := B
        end_time := B + delta - usPerSecond
        symbol := c0.symbol
        period := tp
        unit := tu
        open_ := c0.open_
        high := max c0.high c0.high
        low := min c0.low c0.low
        close := c0.close
        volume := 0 + c0.volume
        num_trades := 0 + c0.num_trades }
      (fun d hd => hnorm d (by simp [hd])) rfl
  refine ⟨(decide (c0.end_time ≥ B + delta - usPerSecond),
      { start_time := B
        end_time := B + delta - usPerSecond
        symbol := c0.symbol
        period := tp
        unit := tu
        open_ := c0.open_
        high := max c0.high c0.high
        low := min c0.low c0.low
        close := c0.close
        volume := 0 + c0.volume
        num_trades := 0 + c0.num_trades }) :: tr, ?_, by simp [hlen], ?_⟩
  · unfold run_aggregate
    rw [hinit]
    dsimp only
    rw [htr]
  · intro i hi hi'
    match i with
    | 0 =>
      refine ⟨rfl, rfl, rfl, rfl, rfl, by simp, by simp, by simp [decide_eq_true_iff]⟩
    | Nat.succ j =>
      have hj : j < tr.length := by simpa using Nat.lt_of_succ_lt_succ hi
      have hj' : j < rest.length := by simpa using Nat.lt_of_succ_lt_succ hi'
      obtain ⟨h1, h2, h3, h4, h5, h6, h7, h8⟩ := hprops j hj hj'
      refine ⟨h1, h2, h3, h4, by simpa using h5, ?_, ?_, ?_⟩
      · simpa [List.foldl] using h6
      · simpa [List.foldl] using h7
      · rw [List.get_cons_succ]
        rw [h8]
        simp [decide_eq_true_iff]

end HyperTrading

namespace HyperTrading

/-- Two 1-minute candles inside the same 1-hour bucket, used as concrete inputs. -/
def bucketCand0 : OHLCVEvent :=
  ⟨0, usPerMinute - usPerSecond, "ETH", 1, "m", 10, 12, 9, 11, 5, 3⟩

def bucketCand1 : OHLCVEvent :=
  ⟨usPerMinute, 2 * usPerMinute - usPerSecond, "ETH", 1, "m", 11, 15, 8, 13, 7, 4⟩

theorem aggregate_ohlcv_single_bucket_witness :
    ∃ tr, run_aggregate 1 "h" (bucketCand0 :: [bucketCand1]) none = some tr ∧
      tr.length = [bucketCand1].length + 1 ∧
      ∀ i (hi : i < tr.length)
        (hi' : i < (bucketCand0 :: [bucketCand1]).length),
        (tr.get ⟨i, hi⟩).2.open_ = bucketCand0.open_ ∧
        (tr.get ⟨i, hi⟩).2.symbol = bucketCand0.symbol ∧
        (tr.get ⟨i, hi⟩).2.start_time = 0 ∧
        (tr.get ⟨i, hi⟩).2.end_time = 0 + usPerHour - usPerSecond ∧
        (tr.get ⟨i, hi⟩).2.close = (((bucketCand0 :: [bucketCand1]).get ⟨i, hi'⟩)).close ∧
        (tr.get ⟨i, hi⟩).2.high
          = (((bucketCand0 :: [bucketCand1]).take (i+1)).map OHLCVEvent.high).foldl max bucketCand0.high ∧
        (tr.get ⟨i, hi⟩).2.low
          = (((bucketCand0 :: [bucketCand1]).take (i+1)).map OHLCVEvent.low).foldl min bucketCand0.low ∧
        ((tr.get ⟨i, hi⟩).1 = true ↔
          0 + usPerHour - usPerSecond ≤ ((bucketCand0 :: [bucketCand1]).get ⟨i, hi'⟩).end_time) :=
  aggregate_ohlcv_single_bucket 1 "h" 0 usPerHour bucketCand0 [bucketCand1]
    (by decide) (by decide) (by decide)
    (List.chain'_cons.mpr ⟨by decide, List.chain'_singleton _⟩) (by decide)

end HyperTrading

namespace HyperTrading

/-- C3: `normalize_timestamp` floors to the bucket boundary for units
`"m"`, `"h"` and `"d"` (shown at representative inputs) and never exceeds
its input; but for unit `"s"` it subtracts `minute % period` seconds, so
00:07:30 with period 5 lands on 00:07:28, not a multiple of 5 seconds —
the code contradicts the spec's "floor by seconds". -/
theorem normalize_timestamp_flooring :
    (normalize_timestamp (7 * usPerMinute + 30 * usPerSecond + 500000) 5 "m"
      = some (5 * usPerMinute)) ∧
    (normalize_timestamp (3 * usPerHour + 7 * usPerMinute + 30 * usPerSecond) 2 "h"
      = some (2 * usPerHour)) ∧
    (normalize_timestamp (3 * usPerDay + 5 * usPerHour + 6 * usPerMinute + 7 * usPerSecond) 1 "d"
      = some (3 * usPerDay)) ∧
    (normalize_timestamp (7 * usPerMinute + 30 * usPerSecond) 5 "s"
      = some (7 * usPerMinute + 28 * usPerSecond)) ∧
    dtSecond (7 * usPerMinute + 28 * usPerSecond) % 5 ≠ 0 ∧
    dtSecond (7 * usPerMinute + 30 * usPerSecond) % 5 = 0 ∧
    (∀ (t : Timestamp) (p : Nat) (u : String) (r : Timestamp),
      normalize_timestamp t p u = some r → r ≤ t) := by
  refine ⟨by decide, by decide, by decide, by decide, by decide, by decide, ?_⟩
  intro t p u r h
  unfold normalize_timestamp floorToSecond floorToMinute floorToHour floorToDay at h
  split_ifs at h
  all_goals first
    | (injection h with h; subst h;
       exact le_trans (Nat.sub_le _ _) (Nat.sub_le _ _))
    | (injection h with h; subst h; exact Nat.sub_le _ _)
    | exact absurd h (by simp)

end HyperTrading

namespace HyperTrading

/-! ## indicators.BollingerBands -/

structure BollingerBands where
  period : Nat
  num_std_dev : ℚ
  data_window : List ℚ
  middle_band : Option ℝ
  upper_band : Option ℝ
  lower_band : Option ℝ

/-- Python `collections.deque(maxlen=n).append(v)`: oldest entries fall out once the
window exceeds its capacity. -/
def dequeAppend (maxlen : Nat) (w : List ℚ) (v : ℚ) : List ℚ :=
  if maxlen < (w ++ [v]).length then (w ++ [v]).drop ((w ++ [v]).length - maxlen)
  else w ++ [v]

/-- Square of `statistics.stdev`: the sample variance with `n - 1`
divisor, idealised over ℚ. -/
def sampleVariance (w : List ℚ) : ℚ :=
  ((w.map (fun x => (x - w.sum / w.length) ^ 2)).sum) / ((w.length : ℚ) - 1)

/-- Embedding of `statistics.stdev` (sample standard deviation), idealised over ℝ. -/
noncomputable def sampleStdev (w : List ℚ) : ℝ :=
  Real.sqrt (sampleVariance w)

/-- Embedding of `BollingerBands.__init__`.  Here `none` models the `ValueError` raised on a
non-positive period or a negative band width; the `Bool` in the result
records whether the period<2 warning was printed (the code only prints and
continues).  Python's `period` is an arbitrary int, hence ℤ. -/
def BollingerBands.init (period : Int) (num_std_dev : ℚ) :
    Option (BollingerBands × Bool) :=
  if period ≤ 0 then none
  else if num_std_dev < 0 then none
  else some
    ({ period := period.toNat
       num_std_dev := num_std_dev
       data_window := []
       middle_band := none
       upper_band := none
       lower_band := none },
     decide (period < 2 ∧ 0 < num_std_dev))

/-- The `middle_band` local of `BollingerBands.update`: the SMA of the window. -/
noncomputable def bbMiddle (period : Nat) (w : List ℚ) : ℝ :=
  (w.sum : ℝ) / (period : ℝ)

/-- The `std_dev` local of `BollingerBands.update`, including its
`period < 2` guard. -/
noncomputable def bbStd (period : Nat) (w : List ℚ) : ℝ :=
  if period < 2 then 0 else sampleStdev w

/-- Embedding of `BollingerBands.update`.  The Python method returns the new bands and
stores them on `self`; here the updated object is returned (the returned
triple is its `bands` field), with the method's `w`/`middle`/`std_dev`
locals written via `dequeAppend`/`bbMiddle`/`bbStd`. -/
noncomputable def BollingerBands.update (bb : BollingerBands) (v : ℚ) :
    BollingerBands :=
  if (dequeAppend bb.period bb.data_window v).length = bb.period then
    { bb with
      data_window := dequeAppend bb.period bb.data_window v
      middle_band := some (bbMiddle bb.period (dequeAppend bb.period bb.data_window v))
      upper_band := some (bbMiddle bb.period (dequeAppend bb.period bb.data_window v)
        + (bb.num_std_dev : ℝ) * bbStd bb.period (dequeAppend bb.period bb.data_window v))
      lower_band := some (bbMiddle bb.period (dequeAppend bb.period bb.data_window v)
        - (bb.num_std_dev : ℝ) * bbStd bb.period (dequeAppend bb.period bb.data_window v)) }
  else
    { bb with
      data_window := dequeAppend bb.period bb.data_window v
      middle_band := none
      upper_band := none
      lower_band := none }

/-- Embedding of `BollingerBands.reset`. -/
def BollingerBands.reset (bb : BollingerBands) : BollingerBands :=
  { bb with
    data_window := []
    middle_band := none
    upper_band := none
    lower_band := none }

/-- Embedding of the `BollingerBands.bands` property. -/
def BollingerBands.bands (bb : BollingerBands) :
    Option ℝ × Option ℝ × Option ℝ :=
  (bb.middle_band, bb.upper_band, bb.lower_band)

/-- Embedding of the `BollingerBands.is_ready` property. -/
def BollingerBands.is_ready (bb : BollingerBands) : Bool :=
  bb.middle_band.isSome

/-- A call against the indicator's mutating interface. -/
inductive BBOp where
  | update (v : ℚ)
  | reset

noncomputable def BollingerBands.step (bb : BollingerBands) : BBOp → BollingerBands
  | .update v => bb.update v
  | .reset => bb.reset

/-- A sequence of `update`/`reset` calls. -/
noncomputable def BollingerBands.run (bb : BollingerBands) (ops : List BBOp) :
    BollingerBands :=
  ops.foldl BollingerBands.step bb

end HyperTrading


namespace HyperTrading

lemma dequeAppend_length (n : Nat) (w : List ℚ) (v : ℚ) :
    (dequeAppend n w v).length = min (w.length + 1) n := by
  unfold dequeAppend
  split_ifs with h <;> simp_all <;> omega

lemma dequeAppend_eq_drop (n : Nat) (w : List ℚ) (v : ℚ) :
    dequeAppend n w v = (w ++ [v]).drop (w.length + 1 - n) := by
  unfold dequeAppend
  split_ifs with h
  · simp_all
  · simp at h
    rw [Nat.sub_eq_zero_of_le (by simpa using h)]
    simp

/-- The invariant the Bollinger state keeps across any call sequence. -/
def BBInv (bb : BollingerBands) : Prop :=
  0 < bb.period ∧ bb.data_window.length ≤ bb.period ∧
  (bb.middle_band.isSome = true ↔ bb.data_window.length = bb.period) ∧
  bb.upper_band.isSome = bb.middle_band.isSome ∧
  bb.lower_band.isSome = bb.middle_band.isSome

lemma BBInv.update {bb : BollingerBands} (h : BBInv bb) (v : ℚ) :
    BBInv (bb.update v) := by
  obtain ⟨hp, hlen, _, _, _⟩ := h
  have hl := dequeAppend_length bb.period bb.data_window v
  unfold BollingerBands.update
  split_ifs with hfull
  · exact ⟨hp, by simpa [hfull] using Nat.le_refl bb.period, by simp [hfull], rfl, rfl⟩
  · exact ⟨hp, by dsimp only; omega, by simp [hfull], rfl, rfl⟩

lemma BBInv.reset {bb : BollingerBands} (h : BBInv bb) :
    BBInv bb.reset := by
  obtain ⟨hp, _, _, _, _⟩ := h
  refine ⟨hp, by simp [BollingerBands.reset], ?_, rfl, rfl⟩
  simp [BollingerBands.reset]
  omega

lemma BBInv.step {bb : BollingerBands} (h : BBInv bb) (op : BBOp) :
    BBInv (bb.step op) := by
  cases op with
  | update v => exact h.update v
  | reset => exact h.reset

lemma BBInv.run {bb : BollingerBands} (h : BBInv bb) (ops : List BBOp) :
    BBInv (bb.run ops) := by
  induction ops generalizing bb with
  | nil => exact h
  | cons op ops ih => exact ih (h.step op)

lemma BollingerBands.step_period (bb : BollingerBands) (op : BBOp) :
    (bb.step op).period = bb.period := by
  cases op with
  | update v =>
    show (bb.update v).period = bb.period
    unfold BollingerBands.update
    split_ifs <;> rfl
  | reset => rfl

lemma BollingerBands.run_period (bb : BollingerBands) (ops : List BBOp) :
    (bb.run ops).period = bb.period := by
  induction ops generalizing bb with
  | nil => rfl
  | cons op ops ih =>
    show ((bb.step op).run ops).period = bb.period
    rw [ih, BollingerBands.step_period]

end HyperTrading

namespace HyperTrading

lemma BollingerBands.update_period (bb : BollingerBands) (v : ℚ) :
    (bb.update v).period = bb.period := by
  unfold BollingerBands.update
  split_ifs <;> rfl

lemma BollingerBands.update_data_window (bb : BollingerBands) (v : ℚ) :
    (bb.update v).data_window = dequeAppend bb.period bb.data_window v := by
  unfold BollingerBands.update
  split_ifs <;> rfl

lemma drop_append_add {α : Type} (A B : List α) (j k : Nat) (h : j ≤ A.length) :
    (A ++ B).drop (j + k) = (A.drop j ++ B).drop k := by
  rw [List.drop_append_eq_append_drop, List.drop_append_eq_append_drop, List.drop_drop,
    List.length_drop]
  congr 1 <;> congr 1 <;> omega

lemma run_updates_window (vs : List ℚ) :
    ∀ bb : BollingerBands, bb.data_window.length ≤ bb.period →
      (bb.run (vs.map BBOp.update)).data_window
        = (bb.data_window ++ vs).drop (bb.data_window.length + vs.length - bb.period) := by
  induction vs with
  | nil =>
    intro bb h
    simp [BollingerBands.run, Nat.sub_eq_zero_of_le h]
  | cons v vs ih =>
    intro bb h
    have hb : (bb.update v).data_window.length ≤ (bb.update v).period := by
      rw [BollingerBands.update_data_window, BollingerBands.update_period,
        dequeAppend_length]
      omega
    have step : bb.run ((v :: vs).map BBOp.update)
        = (bb.update v).run (vs.map BBOp.update) := rfl
    rw [step, ih _ hb, BollingerBands.update_data_window, BollingerBands.update_period,
      dequeAppend_eq_drop]
    rcases Nat.lt_or_ge bb.data_window.length bb.period with hlt | hge
    · have h0 : bb.data_window.length + 1 - bb.period = 0 := by omega
      rw [h0, List.drop_zero]
      rw [show bb.data_window ++ [v] ++ vs = bb.data_window ++ v :: vs by simp]
      congr 1
      simp
      omega
    · have heq : bb.data_window.length = bb.period := le_antisymm h hge
      have h1 : bb.data_window.length + 1 - bb.period = 1 := by omega
      rw [h1]
      have hlen : (List.drop 1 (bb.data_window ++ [v])).length = bb.period := by
        simp
        omega
      rw [hlen, show bb.period + vs.length - bb.period = vs.length by omega]
      rw [show bb.data_window.length + (v :: vs).length - bb.period = 1 + vs.length by
        simp
        omega]
      rw [show bb.data_window ++ v :: vs = (bb.data_window ++ [v]) ++ vs by simp]
      rw [drop_append_add (bb.data_window ++ [v]) vs 1 vs.length (by simp)]

lemma run_updates_window_length (vs : List ℚ) (bb : BollingerBands)
    (h : bb.data_window.length ≤ bb.period) :
    (bb.run (vs.map BBOp.update)).data_window.length
      = min (bb.data_window.length + vs.length) bb.period := by
  rw [run_updates_window vs bb h]
  simp
  omega

end HyperTrading

namespace HyperTrading

lemma BollingerBands.init_elim {period : Int} {k : ℚ} {bb : BollingerBands} {warned : Bool}
    (h : BollingerBands.init period k = some (bb, warned)) :
    0 < period ∧ 0 ≤ k ∧
      bb = ⟨period.toNat, k, [], none, none, none⟩ ∧
      warned = decide (period < 2 ∧ 0 < k) := by
  unfold BollingerBands.init at h
  split_ifs at h with h1 h2
  injection h with h
  injection h with hbb hw
  exact ⟨by omega, le_of_not_lt h2, hbb.symm, hw.symm⟩

lemma sampleVariance_replicate (p : Nat) (v : ℚ) (hp : p ≠ 0) :
    sampleVariance (List.replicate p v) = 0 := by
  unfold sampleVariance
  have hs : (List.replicate p v).sum = (p : ℚ) * v := by
    rw [List.sum_replicate, nsmul_eq_mul]
  rw [hs]
  simp only [List.length_replicate]
  have hmean : (p : ℚ) * v / (p : ℚ) = v := by
    rw [mul_comm, mul_div_assoc, div_self (by exact_mod_cast hp), mul_one]
  rw [hmean]
  simp

lemma bbStd_replicate (p : Nat) (v : ℚ) (hp : p ≠ 0) :
    bbStd p (List.replicate p v) = 0 := by
  unfold bbStd
  split_ifs with h
  · rfl
  · unfold sampleStdev
    rw [sampleVariance_replicate p v hp]
    simp [Real.sqrt_zero]

lemma BollingerBands.update_full (bb : BollingerBands) (v : ℚ)
    (h : (dequeAppend bb.period bb.data_window v).length = bb.period) :
    bb.update v =
      { bb with
        data_window := dequeAppend bb.period bb.data_window v
        middle_band := some (bbMiddle bb.period (dequeAppend bb.period bb.data_window v))
        upper_band := some (bbMiddle bb.period (dequeAppend bb.period bb.data_window v)
          + (bb.num_std_dev : ℝ) * bbStd bb.period (dequeAppend bb.period bb.data_window v))
        lower_band := some (bbMiddle bb.period (dequeAppend bb.period bb.data_window v)
          - (bb.num_std_dev : ℝ) * bbStd bb.period (dequeAppend bb.period bb.data_window v)) } := by
  unfold BollingerBands.update
  rw [if_pos h]

end HyperTrading

namespace HyperTrading

lemma isSome_false_eq_none {α : Type} {o : Option α} (h : o.isSome = false) :
    o = none := by
  cases o <;> simp_all

lemma BollingerBands.run_append (bb : BollingerBands) (l1 l2 : List BBOp) :
    bb.run (l1 ++ l2) = (bb.run l1).run l2 := by
  unfold BollingerBands.run
  exact List.foldl_append _ _ _ _

/-- C5: for an indicator built by `__init__` and any sequence of
`update`/`reset` calls, the bands are defined and `is_ready` holds exactly
when the window holds `period` values; fewer than `period` updates after
construction or reset leave all bands `none`; `period` or more updates make
them real; and `period` equal inputs collapse upper and lower onto the
middle band. -/
theorem bollinger_bands_defined_iff_window_full
    (period : Int) (num_std_dev : ℚ) (bb0 : BollingerBands) (warned : Bool)
    (hinit : BollingerBands.init period num_std_dev = some (bb0, warned))
    (ops : List BBOp) (vs : List ℚ) (v : ℚ) :
    (((bb0.run ops).is_ready = true ↔ (bb0.run ops).data_window.length = bb0.period) ∧
      (bb0.run ops).upper_band.isSome = (bb0.run ops).is_ready ∧
      (bb0.run ops).lower_band.isSome = (bb0.run ops).is_ready) ∧
    (vs.length < bb0.period →
      (bb0.run (vs.map BBOp.update)).bands = (none, none, none) ∧
      (bb0.run (ops ++ BBOp.reset :: vs.map BBOp.update)).bands = (none, none, none)) ∧
    (bb0.period ≤ vs.length →
      (bb0.run (ops ++ vs.map BBOp.update)).is_ready = true) ∧
    ((bb0.run (ops ++ (List.replicate bb0.period v).map BBOp.update)).upper_band
        = (bb0.run (ops ++ (List.replicate bb0.period v).map BBOp.update)).middle_band ∧
      (bb0.run (ops ++ (List.replicate bb0.period v).map BBOp.update)).lower_band
        = (bb0.run (ops ++ (List.replicate bb0.period v).map BBOp.update)).middle_band ∧
      (bb0.run (ops ++ (List.replicate bb0.period v).map BBOp.update)).is_ready = true) := by
  obtain ⟨hp, hk, hbb, hwarn⟩ := BollingerBands.init_elim hinit
  have hp0 : 0 < bb0.period := by rw [hbb]; simp; omega
  have hw0 : bb0.data_window = [] := by rw [hbb]
  have hInv0 : BBInv bb0 := by
    rw [hbb]
    exact ⟨by simp; omega, by simp, by simp; omega, rfl, rfl⟩
  refine ⟨?_, ?_, ?_, ?_⟩
  · -- (i) bands defined iff the window is exactly full
    have hI := hInv0.run ops
    obtain ⟨_, _, hiff, hup, hlo⟩ := hI
    have hper := BollingerBands.run_period bb0 ops
    unfold BollingerBands.is_ready
    rw [hper] at hiff
    exact ⟨hiff, hup, hlo⟩
  · -- (ii) fewer than `period` updates after construction or reset: all bands none
    intro hlt
    constructor
    · have hlen := run_updates_window_length vs bb0 (by rw [hw0]; simp)
      rw [hw0] at hlen
      simp at hlen
      have hI := hInv0.run (vs.map BBOp.update)
      obtain ⟨_, _, hiff, hup, hlo⟩ := hI
      have hper := BollingerBands.run_period bb0 (vs.map BBOp.update)
      have hne : (bb0.run (vs.map BBOp.update)).data_window.length
          ≠ (bb0.run (vs.map BBOp.update)).period := by
        rw [hper, hlen]
        omega
      have hmid : (bb0.run (vs.map BBOp.update)).middle_band = none :=
        isSome_false_eq_none (by
          rcases Bool.eq_false_or_eq_true
            ((bb0.run (vs.map BBOp.update)).middle_band.isSome) with h | h
          · exact absurd (hiff.mp h) hne
          · exact h)
      refine ?_
      simp [BollingerBands.bands, hmid, isSome_false_eq_none (hup.trans (by rw [hmid]; rfl)),
        isSome_false_eq_none (hlo.trans (by rw [hmid]; rfl))]
    · have hres : bb0.run (ops ++ BBOp.reset :: vs.map BBOp.update)
          = ((bb0.run ops).reset).run (vs.map BBOp.update) := by
        rw [show BBOp.reset :: vs.map BBOp.update = [BBOp.reset] ++ vs.map BBOp.update from rfl,
          ← List.append_assoc, BollingerBands.run_append, BollingerBands.run_append]
        rfl
      have hresPer : (bb0.run ops).reset.period = bb0.period := by
        rw [show (bb0.run ops).reset.period = (bb0.run ops).period from rfl,
          BollingerBands.run_period]
      have hlen := run_updates_window_length vs ((bb0.run ops).reset)
        (by simp [BollingerBands.reset])
      rw [show (bb0.run ops).reset.data_window = [] from rfl] at hlen
      simp at hlen
      rw [hresPer] at hlen
      have hI := ((hInv0.run ops).reset).run (vs.map BBOp.update)
      obtain ⟨_, _, hiff, hup, hlo⟩ := hI
      have hper := BollingerBands.run_period ((bb0.run ops).reset) (vs.map BBOp.update)
      rw [hresPer] at hper
      have hne : (((bb0.run ops).reset).run (vs.map BBOp.update)).data_window.length
          ≠ (((bb0.run ops).reset).run (vs.map BBOp.update)).period := by
        rw [hper, hlen]
        omega
      have hmid : (((bb0.run ops).reset).run (vs.map BBOp.update)).middle_band = none :=
        isSome_false_eq_none (by
          rcases Bool.eq_false_or_eq_true
            ((((bb0.run ops).reset).run (vs.map BBOp.update)).middle_band.isSome) with h | h
          · exact absurd (hiff.mp h) hne
          · exact h)
      rw [hres]
      simp [BollingerBands.bands, hmid, isSome_false_eq_none (hup.trans (by rw [hmid]; rfl)),
        isSome_false_eq_none (hlo.trans (by rw [hmid]; rfl))]
  · -- (iii) from the `period`-th update onward the bands are real values
    intro hge
    rw [BollingerBands.run_append]
    have hbase := hInv0.run ops
    have hblen := hbase.2.1
    have hlen := run_updates_window_length vs (bb0.run ops) hblen
    have hper := BollingerBands.run_period bb0 ops
    have hI := hbase.run (vs.map BBOp.update)
    obtain ⟨_, _, hiff, _, _⟩ := hI
    have hper2 := BollingerBands.run_period (bb0.run ops) (vs.map BBOp.update)
    unfold BollingerBands.is_ready
    apply hiff.mpr
    rw [hper2, hlen]
    omega
  · -- (iv) `period` equal inputs collapse the bands onto the middle band
    have hbase := hInv0.run ops
    have hblen := hbase.2.1
    have hper := BollingerBands.run_period bb0 ops
    rw [BollingerBands.run_append]
    have hwin := run_updates_window (List.replicate bb0.period v) (bb0.run ops) hblen
    rw [List.length_replicate, hper] at hwin
    rw [show (bb0.run ops).data_window.length + bb0.period - bb0.period
        = (bb0.run ops).data_window.length by omega] at hwin
    rw [List.drop_left] at hwin
    -- split the run into `period - 1` updates and one final update
    have hsplit : List.replicate bb0.period v
        = List.replicate (bb0.period - 1) v ++ [v] := by
      rw [← List.replicate_succ']
      congr 1
      omega
    have hArun : (bb0.run ops).run ((List.replicate bb0.period v).map BBOp.update)
        = (((bb0.run ops).run ((List.replicate (bb0.period - 1) v).map BBOp.update)).update v) := by
      rw [hsplit, List.map_append, BollingerBands.run_append]
      rfl
    set A := (bb0.run ops).run ((List.replicate (bb0.period - 1) v).map BBOp.update) with hA
    have hAper : A.period = bb0.period := by
      rw [hA, BollingerBands.run_period, hper]
    have hAlen := run_updates_window_length (List.replicate (bb0.period - 1) v)
      (bb0.run ops) hblen
    rw [List.length_replicate, hper] at hAlen
    have hfull : (dequeAppend A.period A.data_window v).length = A.period := by
      rw [dequeAppend_length, hAper, hAlen]
      omega
    have hAwin : dequeAppend A.period A.data_window v = List.replicate bb0.period v := by
      rw [← BollingerBands.update_data_window, ← hArun, hwin]
    rw [hArun, BollingerBands.update_full A v hfull]
    unfold BollingerBands.is_ready
    rw [hAwin, hAper, bbStd_replicate bb0.period v (by omega)]
    simp
end HyperTrading

namespace HyperTrading

/-- A concrete period-2, width-1 indicator state as `__init__` builds it. -/
def bb2 : BollingerBands := ⟨2, 1, [], none, none, none⟩

theorem bollinger_bands_defined_iff_window_full_witness :
    (((bb2.run [BBOp.update 3]).is_ready = true ↔
        (bb2.run [BBOp.update 3]).data_window.length = bb2.period) ∧
      (bb2.run [BBOp.update 3]).upper_band.isSome = (bb2.run [BBOp.update 3]).is_ready ∧
      (bb2.run [BBOp.update 3]).lower_band.isSome = (bb2.run [BBOp.update 3]).is_ready) ∧
    (([7] : List ℚ).length < bb2.period →
      (bb2.run (([7] : List ℚ).map BBOp.update)).bands = (none, none, none) ∧
      (bb2.run ([BBOp.update 3] ++ BBOp.reset :: ([7] : List ℚ).map BBOp.update)).bands
        = (none, none, none)) ∧
    (bb2.period ≤ ([7] : List ℚ).length →
      (bb2.run ([BBOp.update 3] ++ ([7] : List ℚ).map BBOp.update)).is_ready = true) ∧
    ((bb2.run ([BBOp.update 3] ++ (List.replicate bb2.period (5 : ℚ)).map BBOp.update)).upper_band
        = (bb2.run ([BBOp.update 3]
            ++ (List.replicate bb2.period (5 : ℚ)).map BBOp.update)).middle_band ∧
      (bb2.run ([BBOp.update 3] ++ (List.replicate bb2.period (5 : ℚ)).map BBOp.update)).lower_band
        = (bb2.run ([BBOp.update 3]
            ++ (List.replicate bb2.period (5 : ℚ)).map BBOp.update)).middle_band ∧
      (bb2.run ([BBOp.update 3]
          ++ (List.replicate bb2.period (5 : ℚ)).map BBOp.update)).is_ready = true) :=
  bollinger_bands_defined_iff_window_full 2 1 bb2 false rfl [BBOp.update 3] [7] 5

end HyperTrading

namespace HyperTrading

/-- C7 counterexample: period 1 with positive width only warns; the instance
is constructed, not rejected. -/
theorem bollinger_init_period_one_constructs :
    BollingerBands.init 1 2 = some (⟨1, 2, [], none, none, none⟩, true) := rfl

/-- C7 (amended): constructing a BollingerBands indicator with period < 2
and a positive width does not raise — `__init__` prints a warning and
builds the instance, whose updates treat the standard deviation as zero:
with period 1 every update returns upper = lower = middle = the input. -/
theorem bollinger_init_period_one_warns (k : ℚ) (hk : 0 < k) (v : ℚ) :
    BollingerBands.init 1 k = some (⟨1, k, [], none, none, none⟩, true) ∧
    ((⟨1, k, [], none, none, none⟩ : BollingerBands).update v).middle_band = some (v : ℝ) ∧
    ((⟨1, k, [], none, none, none⟩ : BollingerBands).update v).upper_band = some (v : ℝ) ∧
    ((⟨1, k, [], none, none, none⟩ : BollingerBands).update v).lower_band = some (v : ℝ) := by
  have hu := BollingerBands.update_full (⟨1, k, [], none, none, none⟩ : BollingerBands) v rfl
  refine ⟨?_, ?_, ?_, ?_⟩
  · simp [BollingerBands.init, hk, not_lt.mpr hk.le]
  · rw [hu]
    simp [bbMiddle, bbStd, dequeAppend]
  · rw [hu]
    simp [bbMiddle, bbStd, dequeAppend]
  · rw [hu]
    simp [bbMiddle, bbStd, dequeAppend]

theorem bollinger_init_period_one_warns_witness :
    BollingerBands.init 1 2 = some (⟨1, 2, [], none, none, none⟩, true) ∧
    ((⟨1, 2, [], none, none, none⟩ : BollingerBands).update 3).middle_band = some ((3 : ℚ) : ℝ) ∧
    ((⟨1, 2, [], none, none, none⟩ : BollingerBands).update 3).upper_band = some ((3 : ℚ) : ℝ) ∧
    ((⟨1, 2, [], none, none, none⟩ : BollingerBands).update 3).lower_band = some ((3 : ℚ) : ℝ) :=
  bollinger_init_period_one_warns 2 (by norm_num) 3

end HyperTrading

namespace HyperTrading

/-- Sanity check matching the spec's numeric example: period 3, inputs
1,2,3 give sample stdev 1. -/
lemma sampleStdev_example : sampleStdev [1, 2, 3] = 1 := by
  unfold sampleStdev
  have h : sampleVariance [1, 2, 3] = 1 := by
    unfold sampleVariance
    norm_num
  rw [h]
  simp

end HyperTrading

namespace HyperTrading

/-! ## `utils.round_values` and the strategy's order constructions (`mv_bb.py`) -/

/-- Modelled from the spec: `utils/utils.py` (defining `round_values`) is
absent from src/.  Per the spec, "all prices and sizes are rounded to
separate, fixed decimal precisions before submission"; `round_values x
(some d)` rounds `x` to `d` decimal places, and `none` stands for a call
that omits the precision argument, in which case the helper's default
applies (taken, after Python's `round`, as rounding to a whole number). -/
def round_values {α : Type} [LinearOrderedField α] [FloorRing α]
    (x : α) (max_decimals : Option Nat) : α :=
  match max_decimals with
  | some d => ((round (x * 10 ^ d) : ℤ) : α) / 10 ^ d
  | none => ((round x : ℤ) : α)

/-- One order submitted through `exchange.order`.  `trigger_px`/`tpsl` are
the fields of a trigger order's `order_type`; `tif` that of a limit order. -/
structure Order (α : Type) where
  is_buy : Bool
  sz : α
  limit_px : α
  trigger_px : Option α
  tpsl : Option String
  tif : Option String

/-- The strategy attributes and live values its order logic reads:
the current Bollinger bands, `_get_current_asset_quantity()`, and the
configured sizes/multipliers/precisions. -/
structure StrategyCtx (α : Type) where
  lower_band : α
  middle_band : α
  upper_band : α
  position_size : α
  trade_size_usd : α
  stop_loss_multiplier : α
  take_profit_multiplier : α
  max_decimals_px : Nat
  max_decimals_sz : Nat

/-- The NEUTRAL-state order logic (identical in `_start_up` and the candle
path of `process_message`): buy limit at the lower band, sell limit at the
upper band, both Gtc. -/
def neutral_orders {α : Type} [LinearOrderedField α] [FloorRing α]
    (c : StrategyCtx α) : List (Order α) :=
  [ { is_buy := true
      sz := round_values (c.trade_size_usd / c.lower_band) (some c.max_decimals_sz)
      limit_px := round_values c.lower_band (some c.max_decimals_px)
      trigger_px := none
      tpsl := none
      tif := some "Gtc" },
    { is_buy := false
      sz := round_values (c.trade_size_usd / c.upper_band) (some c.max_decimals_sz)
      limit_px := round_values c.upper_band (some c.max_decimals_px)
      trigger_px := none
      tpsl := none
      tif := some "Gtc" } ]

/-- The LONG-state order logic (identical in `_start_up`, the candle path
and the fill path): `bb_range_half = -lower + middle`; a sell stop and a
sell take-profit, every price rounded with `max_decimals_px`. -/
def long_orders {α : Type} [LinearOrderedField α] [FloorRing α]
    (c : StrategyCtx α) : List (Order α) :=
  [ { is_buy := false
      sz := c.position_size
      limit_px := round_values
        (c.lower_band - (-c.lower_band + c.middle_band) * c.stop_loss_multiplier)
        (some c.max_decimals_px)
      trigger_px := some (round_values
        (c.lower_band - (-c.lower_band + c.middle_band) * c.stop_loss_multiplier)
        (some c.max_decimals_px))
      tpsl := some "sl"
      tif := none },
    { is_buy := false
      sz := c.position_size
      limit_px := round_values
        (c.lower_band + (-c.lower_band + c.middle_band) * c.take_profit_multiplier)
        (some c.max_decimals_px)
      trigger_px := some (round_values
        (c.lower_band + (-c.lower_band + c.middle_band) * c.take_profit_multiplier)
        (some c.max_decimals_px))
      tpsl := some "tp"
      tif := none } ]

/-- The SHORT-state order logic of the candle path of `process_message`
(`mv_bb.py` lines 330-374): `bb_range_half = upper - middle`; a buy stop and
a buy take-profit.  The take-profit `triggerPx` call passes no precision
argument in the source; every sibling price passes `max_decimals_px`. -/
def short_orders_candle {α : Type} [LinearOrderedField α] [FloorRing α]
    (c : StrategyCtx α) : List (Order α) :=
  [ { is_buy := true
      sz := c.position_size
      limit_px := round_values
        (c.upper_band + (c.upper_band - c.middle_band) * c.stop_loss_multiplier)
        (some c.max_decimals_px)
      trigger_px := some (round_values
        (c.upper_band + (c.upper_band - c.middle_band) * c.stop_loss_multiplier)
        (some c.max_decimals_px))
      tpsl := some "sl"
      tif := none },
    { is_buy := true
      sz := c.position_size
      limit_px := round_values
        (c.upper_band - (c.upper_band - c.middle_band) * c.take_profit_multiplier)
        (some c.max_decimals_px)
      trigger_px := some (round_values
        (c.upper_band - (c.upper_band - c.middle_band) * c.take_profit_multiplier)
        none)
      tpsl := some "tp"
      tif := none } ]

/-- The SHORT-state order logic of `_start_up` (`mv_bb.py` lines 190-234):
the same computation as the candle path, including the missing precision
argument on the take-profit `triggerPx`. -/
def short_orders_startup {α : Type} [LinearOrderedField α] [FloorRing α]
    (c : StrategyCtx α) : List (Order α) :=
  [ { is_buy := true
      sz := c.position_size
      limit_px := round_values
        (c.upper_band + (c.upper_band - c.middle_band) * c.stop_loss_multiplier)
        (some c.max_decimals_px)
      trigger_px := some (round_values
        (c.upper_band + (c.upper_band - c.middle_band) * c.stop_loss_multiplier)
        (some c.max_decimals_px))
      tpsl := some "sl"
      tif := none },
    { is_buy := true
      sz := c.position_size
      limit_px := round_values
        (c.upper_band - (c.upper_band - c.middle_band) * c.take_profit_multiplier)
        (some c.max_decimals_px)
      trigger_px := some (round_values
        (c.upper_band - (c.upper_band - c.middle_band) * c.take_profit_multiplier)
        none)
      tpsl := some "tp"
      tif := none } ]

/-- The SHORT-entry order logic of the fill path of `process_message`
(`mv_bb.py` lines 434-479), again with the unrounded take-profit trigger. -/
def short_orders_fill {α : Type} [LinearOrderedField α] [FloorRing α]
    (c : StrategyCtx α) : List (Order α) :=
  [ { is_buy := true
      sz := c.position_size
      limit_px := round_values
        (c.upper_band + (c.upper_band - c.middle_band) * c.stop_loss_multiplier)
        (some c.max_decimals_px)
      trigger_px := some (round_values
        (c.upper_band + (c.upper_band - c.middle_band) * c.stop_loss_multiplier)
        (some c.max_decimals_px))
      tpsl := some "sl"
      tif := none },
    { is_buy := true
      sz := c.position_size
      limit_px := round_values
        (c.upper_band - (c.upper_band - c.middle_band) * c.take_profit_multiplier)
        (some c.max_decimals_px)
      trigger_px := some (round_values
        (c.upper_band - (c.upper_band - c.middle_band) * c.take_profit_multiplier)
        none)
      tpsl := some "tp"
      tif := none } ]

end HyperTrading

namespace HyperTrading

/-! ## The strategy state machine (`mv_bb.MeanReversionBB.process_message`) -/

inductive MVBBState where
  | NEUTRAL
  | LONG
  | SHORT
  deriving DecidableEq, Repr

/-- A `userFills` message as the fill path reads it.  Modelled from the spec
in one respect: `process_message` reads `event.order.quantity` from a
`FillEvent` built by the top-level `events.py`, which is absent from src/
(the `core/events.py` FillEvent has no `order` attribute); per the spec the
branching is on the fill's signed filled quantity, carried here directly as
`quantity`. -/
structure FillMessage where
  isSnapshot : Bool
  quantity : ℚ

/-- What a fill message does to the strategy: the next state, whether
`cancel_all_orders` was called, and the orders submitted. -/
structure FillOutcome (α : Type) where
  state : MVBBState
  cancelled : Bool
  orders : List (Order α)

/-- The `userFills` branch of `MeanReversionBB.process_message`
(`mv_bb.py` lines 377-491).  `none` models the `ValueError` raised on a
zero-quantity fill in NEUTRAL. -/
def process_fill {α : Type} [LinearOrderedField α] [FloorRing α]
    (st : MVBBState) (c : StrategyCtx α) (m : FillMessage) :
    Option (FillOutcome α) :=
  if m.isSnapshot then some ⟨st, false, []⟩
  else
    match st with
    | .NEUTRAL =>
      if 0 < m.quantity then some ⟨.LONG, true, long_orders c⟩
      else if m.quantity < 0 then some ⟨.SHORT, true, short_orders_fill c⟩
      else none
    | .LONG => some ⟨.NEUTRAL, true, []⟩
    | .SHORT => some ⟨.NEUTRAL, true, []⟩

/-- The per-account mutable strategy state the candle path touches. -/
structure MVBBCandleState where
  latest_candle_watermark : Timestamp
  current_candle : Option OHLCVEvent
  bollinger_bands : BollingerBands
  strategy_state : MVBBState
  startup_complete : Bool

/-- The completed-aggregate tail of the candle path: feed the indicator,
flip `startup_complete` once it is ready, and run the per-state order
logic.  `none` models the TypeError of reading still-undefined bands in the
order arithmetic.  `s` already carries the advanced watermark and
aggregate. -/
noncomputable def candle_complete (s : MVBBCandleState)
    (trade slm tpm pos : ℝ) (px sz : Nat) (close : ℚ) :
    Option (MVBBCandleState × List (Order ℝ)) :=
  if s.startup_complete || (s.bollinger_bands.update close).is_ready then
    match (s.bollinger_bands.update close).lower_band,
        (s.bollinger_bands.update close).middle_band,
        (s.bollinger_bands.update close).upper_band with
    | some lb, some mb, some ub =>
      match s.strategy_state with
      | .NEUTRAL => some
          ({ s with
              bollinger_bands := s.bollinger_bands.update close
              startup_complete := true },
            neutral_orders ⟨lb, mb, ub, pos, trade, slm, tpm, px, sz⟩)
      | .LONG => some
          ({ s with
              bollinger_bands := s.bollinger_bands.update close
              startup_complete := true },
            long_orders ⟨lb, mb, ub, pos, trade, slm, tpm, px, sz⟩)
      | .SHORT => some
          ({ s with
              bollinger_bands := s.bollinger_bands.update close
              startup_complete := true },
            short_orders_candle ⟨lb, mb, ub, pos, trade, slm, tpm, px, sz⟩)
    | _, _, _ => none
  else some
    ({ s with
        bollinger_bands := s.bollinger_bands.update close
        startup_complete := s.startup_complete || (s.bollinger_bands.update close).is_ready },
      [])

/-- The `candle` branch of `MeanReversionBB.process_message`
(`mv_bb.py` lines 241-376): watermark/staleness gating, aggregation, and on
completion the indicator update and order logic.  `now` is
`dt.datetime.now()`. -/
noncomputable def process_candle (s : MVBBCandleState) (now : Timestamp)
    (tp : Nat) (tu : String) (trade slm tpm pos : ℝ) (px sz : Nat)
    (event : OHLCVEvent) : Option (MVBBCandleState × List (Order ℝ)) :=
  if event.start_time ≤ s.latest_candle_watermark then some (s, [])
  else if now ≤ event.end_time then some (s, [])
  else
    match aggregate_ohlcv event s.current_candle tp tu with
    | none => none
    | some (is_complete, agg) =>
      if is_complete then
        candle_complete
          { s with
              latest_candle_watermark := event.start_time
              current_candle := some agg }
          trade slm tpm pos px sz agg.close
      else some
        ({ s with
            latest_candle_watermark := event.start_time
            current_candle := some agg },
          [])

end HyperTrading

namespace HyperTrading

/-- C2: non-snapshot fills drive the state machine — from NEUTRAL a
positive quantity enters LONG, a negative one SHORT (each cancelling
resting orders and placing the entry bracket), zero quantity raises; from
LONG or SHORT any fill flattens back to NEUTRAL and cancels resting orders;
snapshot fills change nothing. -/
theorem process_fill_state_machine {α : Type} [LinearOrderedField α] [FloorRing α]
    (st : MVBBState) (c : StrategyCtx α) (m : FillMessage) :
    (m.isSnapshot = true → process_fill st c m = some ⟨st, false, []⟩) ∧
    (m.isSnapshot = false → st = .NEUTRAL → 0 < m.quantity →
      process_fill st c m = some ⟨.LONG, true, long_orders c⟩) ∧
    (m.isSnapshot = false → st = .NEUTRAL → m.quantity < 0 →
      process_fill st c m = some ⟨.SHORT, true, short_orders_fill c⟩) ∧
    (m.isSnapshot = false → st = .NEUTRAL → m.quantity = 0 →
      process_fill st c m = none) ∧
    (m.isSnapshot = false → st = .LONG ∨ st = .SHORT →
      process_fill st c m = some ⟨.NEUTRAL, true, []⟩) := by
  refine ⟨?_, ?_, ?_, ?_, ?_⟩
  · intro h
    simp [process_fill, h]
  · intro h hst hq
    subst hst
    simp [process_fill, h, hq]
  · intro h hst hq
    subst hst
    simp [process_fill, h, hq, not_lt.mpr hq.le, lt_irrefl]
  · intro h hst hq
    subst hst
    simp [process_fill, h, hq]
  · intro h hst
    rcases hst with hst | hst <;> subst hst <;> simp [process_fill, h]

end HyperTrading

namespace HyperTrading

lemma candle_complete_watermark (s : MVBBCandleState) (trade slm tpm pos : ℝ)
    (px sz : Nat) (close : ℚ) (s' : MVBBCandleState) (os : List (Order ℝ))
    (h : candle_complete s trade slm tpm pos px sz close = some (s', os)) :
    s'.latest_candle_watermark = s.latest_candle_watermark := by
  unfold candle_complete at h
  split_ifs at h <;>
    (repeat' split at h) <;>
    first
      | (injection h with h; injection h with h1 h2; rw [← h1])
      | exact absurd h (by simp)

/-- C4: a candle whose start is not strictly after the watermark, or whose
end is not yet in the past, is skipped without raising and leaves the whole
strategy state untouched; any accepted candle's result carries the
watermark advanced to the event's start time, so the watermark never
decreases. -/
theorem process_candle_gating (s : MVBBCandleState) (now : Timestamp)
    (tp : Nat) (tu : String) (trade slm tpm pos : ℝ) (px sz : Nat)
    (event : OHLCVEvent) :
    (event.start_time ≤ s.latest_candle_watermark →
      process_candle s now tp tu trade slm tpm pos px sz event = some (s, [])) ∧
    (now ≤ event.end_time →
      process_candle s now tp tu trade slm tpm pos px sz event = some (s, [])) ∧
    (∀ s' os, process_candle s now tp tu trade slm tpm pos px sz event = some (s', os) →
      s.latest_candle_watermark ≤ s'.latest_candle_watermark ∧
      (s.latest_candle_watermark < event.start_time → event.end_time < now →
        s'.latest_candle_watermark = event.start_time)) := by
  refine ⟨?_, ?_, ?_⟩
  · intro h
    simp [process_candle, h]
  · intro h
    unfold process_candle
    split_ifs with h1 h2
    · rfl
    · rfl
  · intro s' os h
    unfold process_candle at h
    split_ifs at h with h1 h2
    · injection h with h
      injection h with hs _
      subst hs
      exact ⟨le_refl _, fun hlt _ => absurd h1 (not_le.mpr hlt)⟩
    · injection h with h
      injection h with hs _
      subst hs
      exact ⟨le_refl _, fun _ hlt => absurd h2 (not_le.mpr hlt)⟩
    · rcases hagg : aggregate_ohlcv event s.current_candle tp tu with _ | ⟨b, agg⟩ <;>
        rw [hagg] at h
      · exact absurd h (by simp)
      · have hwm : s'.latest_candle_watermark = event.start_time := by
          rcases b with _ | _
          · simp only [Bool.false_eq_true, if_false] at h
            injection h with h
            injection h with hs _
            rw [← hs]
          · simp only [if_true] at h
            exact candle_complete_watermark _ _ _ _ _ _ _ _ _ _ h
        refine ⟨?_, fun _ _ => hwm⟩
        rw [hwm]
        exact le_of_lt (not_le.mp h1)

end HyperTrading

namespace HyperTrading

/-- C8: in the SHORT-state order logic every submitted price passes the
rounding helper with `max_decimals_px`, except the take-profit trigger
price, which is computed without the precision argument in both the
candle-driven and the startup path (the two paths compute identical
orders); the omission is observable, the two roundings differ at 9/4 with
one decimal. -/
theorem short_tp_trigger_unrounded {α : Type} [LinearOrderedField α] [FloorRing α]
    (c : StrategyCtx α) :
    ((short_orders_candle c).map Order.limit_px
      = [round_values (c.upper_band + (c.upper_band - c.middle_band) * c.stop_loss_multiplier)
           (some c.max_decimals_px),
         round_values (c.upper_band - (c.upper_band - c.middle_band) * c.take_profit_multiplier)
           (some c.max_decimals_px)]) ∧
    ((short_orders_candle c).map Order.trigger_px
      = [some (round_values (c.upper_band + (c.upper_band - c.middle_band) * c.stop_loss_multiplier)
           (some c.max_decimals_px)),
         some (round_values (c.upper_band - (c.upper_band - c.middle_band) * c.take_profit_multiplier)
           none)]) ∧
    short_orders_startup c = short_orders_candle c ∧
    round_values ((9 : ℚ) / 4) none ≠ round_values ((9 : ℚ) / 4) (some 1) := by
  refine ⟨rfl, rfl, rfl, ?_⟩
  have h1 : round ((9 : ℚ) / 4) = 2 := by norm_num [round_eq]
  have h2 : round ((9 : ℚ) / 4 * 10) = 23 := by norm_num [round_eq]
  simp [round_values, h1]
  rw [h2]
  norm_num

end HyperTrading

namespace HyperTrading

/-! ## `ws_client.HLWebSocketClient`: post correlation and `await_post` -/

/-- The `data` payload of an inbound frame; `id` is `int(data.get("id"))`
when present and convertible, `body` stands for the rest of the payload. -/
structure PostData where
  id : Option Int
  body : String
  deriving DecidableEq, Repr

/-- An inbound frame: its `channel` tag and its `data`. -/
structure WSFrame where
  channel : String
  data : PostData
  deriving DecidableEq, Repr

/-- Model of `self._pending_posts`: a dict from request id to `None` (awaiting) or the
recorded response data. -/
abbrev PendingMap := Int → Option (Option PostData)

def setP (m : PendingMap) (k : Int) (v : Option PostData) : PendingMap :=
  fun q => if q = k then some v else m q

/-- Effect of `self._pending_posts.pop(request_id)` on the dict. -/
def eraseP (m : PendingMap) (k : Int) : PendingMap :=
  fun q => if q = k then none else m q

/-- The post-correlation step of `_on_message` (`ws_client.py` lines
189-199): a frame on channel `post` whose id is pending records its data
and wakes the waiters; anything else leaves the table unchanged. -/
def on_post_message (m : PendingMap) (f : WSFrame) : PendingMap :=
  if f.channel = "post" then
    match f.data.id with
    | some rid => if (m rid).isSome then setP m rid (some f.data) else m
    | none => m
  else m

/-- Embedding of `await_post` (`ws_client.py` lines 123-133), run against the sequence of
inbound frames delivered before its timeout elapses.  An id absent from the
pending table returns `none` at once; a filled slot is popped and returned;
an awaiting slot waits for the next frame (one condition-variable wake per
processed frame) and an exhausted frame list is the elapsed timeout,
returning `none` rather than raising. -/
def await_post (rid : Int) (frames : List WSFrame) (m : PendingMap) :
    Option PostData × PendingMap :=
  match frames with
  | [] =>
    match m rid with
    | some (some d) => (some d, eraseP m rid)
    | _ => (none, m)
  | f :: fs =>
    match m rid with
    | none => (none, m)
    | some (some d) => (some d, eraseP m rid)
    | some none => await_post rid fs (on_post_message m f)

end HyperTrading

namespace HyperTrading

lemma on_post_message_other (m : PendingMap) (g : WSFrame) (rid : Int)
    (h : ¬(g.channel = "post" ∧ g.data.id = some rid)) :
    on_post_message m g rid = m rid := by
  unfold on_post_message
  split_ifs with hc
  · cases hid : g.data.id with
    | none => rfl
    | some d =>
      have hd : rid ≠ d := by
        intro he
        exact h ⟨hc, by rw [hid, he]⟩
      dsimp only
      split_ifs with hs
      · show setP m d (some g.data) rid = m rid
        unfold setP
        rw [if_neg hd]
      · rfl
  · rfl

lemma on_post_message_match (m : PendingMap) (g : WSFrame) (rid : Int)
    (hc : g.channel = "post") (hid : g.data.id = some rid)
    (hreg : (m rid).isSome = true) :
    on_post_message m g = setP m rid (some g.data) := by
  unfold on_post_message
  rw [if_pos hc, hid]
  dsimp only
  rw [if_pos hreg]

lemma await_post_unregistered (rid : Int) (frames : List WSFrame) (m : PendingMap)
    (h : m rid = none) : await_post rid frames m = (none, m) := by
  cases frames <;> simp [await_post, h]

lemma await_post_found (rid : Int) (frames : List WSFrame) (m : PendingMap)
    (d : PostData) (h : m rid = some (some d)) :
    await_post rid frames m = (some d, eraseP m rid) := by
  cases frames <;> simp [await_post, h]

lemma await_post_waiting_nil (rid : Int) (m : PendingMap)
    (h : m rid = some none) : await_post rid [] m = (none, m) := by
  simp [await_post, h]

lemma await_post_waiting_cons (rid : Int) (f : WSFrame) (fs : List WSFrame)
    (m : PendingMap) (h : m rid = some none) :
    await_post rid (f :: fs) m = await_post rid fs (on_post_message m f) := by
  simp [await_post, h]

/-- C6: an inbound `post` frame whose id matches no pending entry is
dropped without effect; a registered id waits through any non-matching
frames and, once a matching frame is recorded, returns exactly that frame's
data and removes the pending entry; with no matching frame before the
timeout, or an unregistered id, `await_post` returns no result instead of
raising. -/
theorem await_post_correlation (m : PendingMap) (rid : Int)
    (pre post : List WSFrame) (fm g : WSFrame) :
    (g.channel = "post" → (∀ d, g.data.id = some d → m d = none) →
      on_post_message m g = m) ∧
    (m rid = some none → fm.channel = "post" → fm.data.id = some rid →
      (∀ f ∈ pre, ¬(f.channel = "post" ∧ f.data.id = some rid)) →
      (await_post rid (pre ++ fm :: post) m).1 = some fm.data ∧
      (await_post rid (pre ++ fm :: post) m).2 rid = none) ∧
    (m rid = some none →
      (∀ f ∈ pre, ¬(f.channel = "post" ∧ f.data.id = some rid)) →
      (await_post rid pre m).1 = none) ∧
    (m rid = none → await_post rid pre m = (none, m)) := by
  refine ⟨?_, ?_, ?_, ?_⟩
  · intro hc hdrop
    unfold on_post_message
    rw [if_pos hc]
    cases hid : g.data.id with
    | none => rfl
    | some d =>
      dsimp only
      rw [hdrop d hid]
      rfl
  · intro hreg hc hid
    induction pre generalizing m with
    | nil =>
      intro _
      have hstep : on_post_message m fm = setP m rid (some fm.data) :=
        on_post_message_match m fm rid hc hid (by rw [hreg]; rfl)
      have hslot : setP m rid (some fm.data) rid = some (some fm.data) := by
        unfold setP
        rw [if_pos rfl]
      have heq : await_post rid ([] ++ fm :: post) m
          = (some fm.data, eraseP (setP m rid (some fm.data)) rid) := by
        rw [List.nil_append, await_post_waiting_cons rid fm post m hreg, hstep,
          await_post_found rid post _ fm.data hslot]
      rw [heq]
      refine ⟨rfl, ?_⟩
      simp [eraseP]
    | cons f fs ih =>
      intro hpre
      have hf : ¬(f.channel = "post" ∧ f.data.id = some rid) := hpre f (by simp)
      have hslot : on_post_message m f rid = some none := by
        rw [on_post_message_other m f rid hf, hreg]
      rw [List.cons_append, await_post_waiting_cons rid f (fs ++ fm :: post) m hreg]
      exact ih (on_post_message m f) hslot (fun q hq => hpre q (by simp [hq]))
  · intro hreg
    induction pre generalizing m with
    | nil =>
      intro _
      rw [await_post_waiting_nil rid m hreg]
    | cons f fs ih =>
      intro hpre
      have hf : ¬(f.channel = "post" ∧ f.data.id = some rid) := hpre f (by simp)
      have hslot : on_post_message m f rid = some none := by
        rw [on_post_message_other m f rid hf, hreg]
      rw [await_post_waiting_cons rid f fs m hreg]
      exact ih (on_post_message m f) hslot (fun q hq => hpre q (by simp [hq]))
  · intro hreg
    exact await_post_unregistered rid pre m hreg

end HyperTrading

namespace HyperTrading

/-! ## `order_system.BasicOrderSystem` -/

/-- The outcome of a remote call: a returned value or a raised exception. -/
inductive PyResult (α : Type) where
  | ok (val : α)
  | exc
  deriving DecidableEq, Repr

/-- One entry of `info.open_orders(...)`: the fields `cancel_all_orders`
reads. -/
structure OpenOrder where
  coin : String
  oid : Nat
  deriving DecidableEq, Repr

/-- Embedding of `BasicOrderSystem.get_open_orders`: fetch, optional symbol filter,
exceptions converted to `[]`. -/
def get_open_orders (fetched : PyResult (List OpenOrder)) (symbol : Option String) :
    List OpenOrder :=
  match fetched with
  | .ok os =>
    match symbol with
    | some sym => os.filter (fun o => o.coin = sym)
    | none => os
  | .exc => []

/-- Truthiness of `res and res.get("status") == "ok"` on a cancel response, where
`.ok none` is a falsy/empty response and `.exc` a raised exception. -/
def isOkResponse : PyResult (Option String) → Bool
  | .ok (some st) => st = "ok"
  | .ok none => false
  | .exc => false

/-- The loop body of `cancel_all_orders`: one cancel attempt inside its own
try/except, bumping the count on an `"ok"` acknowledgement. -/
def cancel_step (cancel : OpenOrder → PyResult (Option String))
    (count : Nat) (o : OpenOrder) : Nat :=
  match cancel o with
  | .ok (some st) => if st = "ok" then count + 1 else count
  | .ok none => count
  | .exc => count

/-- Embedding of `BasicOrderSystem.cancel_all_orders`: walk the open orders, cancel each
inside its own try/except, and count the `"ok"` acknowledgements.  `cancel`
gives each order's remote outcome. -/
def cancel_all_orders (fetched : PyResult (List OpenOrder)) (symbol : Option String)
    (cancel : OpenOrder → PyResult (Option String)) : Nat :=
  (get_open_orders fetched symbol).foldl (cancel_step cancel) 0

lemma cancel_step_eq (cancel : OpenOrder → PyResult (Option String))
    (n : Nat) (o : OpenOrder) :
    cancel_step cancel n o = if isOkResponse (cancel o) then n + 1 else n := by
  unfold cancel_step isOkResponse
  rcases cancel o with v | _
  · rcases v with _ | st
    · rfl
    · by_cases hst : st = "ok" <;> simp [hst]
  · rfl

lemma cancel_fold_count (cancel : OpenOrder → PyResult (Option String)) :
    ∀ (l : List OpenOrder) (n : Nat),
      l.foldl (cancel_step cancel) n
        = n + (l.filter (fun o => isOkResponse (cancel o))).length := by
  intro l
  induction l with
  | nil => intro n; simp
  | cons o l ih =>
    intro n
    rw [List.foldl_cons, cancel_step_eq, List.filter_cons]
    by_cases hok : isOkResponse (cancel o)
    · simp only [hok, if_true, List.length_cons, ih]
      omega
    · simp only [hok, if_false, Bool.false_eq_true, ih]

/-- Embedding of `BasicOrderSystem.place_limit_order`.  The result pairs the returned
bool with whether `exchange.order` was invoked at all. -/
def place_limit_order (size price : ℚ) (remote : PyResult (Option String)) :
    Bool × Bool :=
  if size ≤ 0 ∨ price ≤ 0 then (false, false)
  else
    match remote with
    | .ok (some st) => (st = "ok", true)
    | .ok none => (false, true)
    | .exc => (false, true)

/-- C9: `cancel_all_orders` returns exactly the number of cancel requests
the exchange acknowledged with status `"ok"`, attempting every open order
regardless of earlier failures or exceptions, and a failed order fetch
yields 0 — by its type it never raises. -/
theorem cancel_all_orders_counts_acks (fetched : PyResult (List OpenOrder))
    (symbol : Option String) (cancel : OpenOrder → PyResult (Option String)) :
    cancel_all_orders fetched symbol cancel
      = ((get_open_orders fetched symbol).filter
          (fun o => isOkResponse (cancel o))).length ∧
    cancel_all_orders .exc symbol cancel = 0 := by
  constructor
  · rw [cancel_all_orders, cancel_fold_count]
    exact Nat.zero_add _
  · rfl

/-- C10: `place_limit_order` with non-positive size or price returns false
without issuing any request to the exchange. -/
theorem place_limit_order_rejects_nonpositive (size price : ℚ)
    (remote : PyResult (Option String)) (h : size ≤ 0 ∨ price ≤ 0) :
    place_limit_order size price remote = (false, false) := by
  rw [place_limit_order.eq_def, if_pos h]

theorem place_limit_order_rejects_nonpositive_witness :
    ((0 : ℚ) ≤ 0 ∨ (5 : ℚ) ≤ 0) ∧
      place_limit_order 0 5 (.ok (some "ok")) = (false, false) :=
  ⟨Or.inl le_rfl,
    place_limit_order_rejects_nonpositive 0 5 (.ok (some "ok")) (Or.inl le_rfl)⟩

end HyperTrading
